import Mathlib

/-!
Shallow embedding of the identity-normalization and standings-computation
core of `src/app.py` (a pandas/streamlit league-standings manager), together
with theorems settling the frozen claims about it.

Modelling conventions:
* A pandas cell that may hold a number, a string, or NaN is `PCell`.
* `Option String` models a nullable string column (`none` = NaN).
* Machine floats in the source only ever hold whole-number points in the
  scenarios the spec describes; points are embedded as `Int`.
* DataFrames are `List`s of typed rows; column assignment is record update.
-/

/-- Cell of the Points / Rank columns: a number, a raw string, or missing
(NaN), mirroring what `pd.read_csv` / `get_as_dataframe` can produce. -/
inductive PCell where
  | num (n : Int)
  | str (s : String)
  | null
deriving DecidableEq, Repr

/-- One uploaded result row (`df` in `normalize_ids` / `append_results`).
The two UID columns start absent and are written by `normalize_ids`,
exactly as the pandas code adds the `PlayerUID` / `NormalizedUID` columns. -/
structure Row where
  name : String                       -- TeamPlayers1Name
  asmo : Option String                -- TeamPlayers1AsmoConnectId (none = NaN)
  username : Option String            -- TeamPlayers1Username
  points : PCell                      -- Points
  rank : PCell                        -- Rank
  playerUID : Option String := none
  normalizedUID : Option String := none
deriving DecidableEq, Repr

/-- One row of the persistent `raw_results` sheet, in the column order the
sheet header fixes. `league`, `tournament`, `date` are written by
`append_results` and are never missing. -/
structure StoredRow where
  league : String
  tournament : String
  date : String
  normalizedUID : String
  name : String
  username : Option String
  asmo : Option String
  points : PCell
  rank : PCell
deriving DecidableEq, Repr

/-- One row after `load_results_for_league`: string columns have been
`fillna("")`-filled and Points coerced to a number. -/
structure LoadedRow where
  league : String
  tournament : String
  date : String
  normalizedUID : String
  name : String
  username : String
  asmo : String
  points : Int
  rank : PCell
deriving DecidableEq, Repr

/-- One output row of `compute_standings` (columns Rank, Player, Total Points). -/
structure SRow where
  rank : Int
  player : String
  totalPoints : Int
deriving DecidableEq, Repr

/-- Fuel-driven worker for first-occurrence deduplication.  The fuel only
makes the recursion structural (each step filters the tail, which does not
shrink the list syntactically); it never runs out when started at the
list's length. -/
def dedupAux {α : Type} [DecidableEq α] : Nat → List α → List α
  | _, [] => []
  | 0, _ :: _ => []
  | fuel + 1, x :: xs => x :: dedupAux fuel (xs.filter (fun y => decide (y ≠ x)))

/-- First-occurrence deduplication, the order `pandas.Series.unique` uses. -/
def dedupF {α : Type} [DecidableEq α] (l : List α) : List α := dedupAux l.length l

/-- Python's `"__" in u`: the string contains two consecutive underscores. -/
def hasDoubleUnderscore : List Char → Bool
  | [] => false
  | [_] => false
  | a :: b :: rest => (a == '_' && b == '_') || hasDoubleUnderscore (b :: rest)

/-- The separator test `"__" in u` used to classify PlayerUIDs. -/
def hasSep (s : String) : Bool := hasDoubleUnderscore s.data

/-- Python's `s.strip() == ""`: every character is whitespace.  (The source
only ever uses `.strip()` to test for blankness, so the blank test is
embedded directly.) -/
def isBlank (s : String) : Bool := s.data.all Char.isWhitespace

/-- Strip leading and trailing whitespace from a character list (the
`.strip()` the numeric parser applies). -/
def stripChars (cs : List Char) : List Char :=
  ((cs.dropWhile Char.isWhitespace).reverse.dropWhile Char.isWhitespace).reverse

/-- `create_uid` of app.py: `f"{name}__{asmo}"` when the AsmoConnect id is
present and does not strip to the empty string, else the display name. -/
def create_uid (r : Row) : String :=
  match r.asmo with
  | some a => if isBlank a then r.name else r.name ++ "__" ++ a
  | none => r.name

/-- Distinct PlayerUIDs of the rows whose display name is `n`, in first
appearance order (`grp["PlayerUID"].unique().tolist()`).  The PlayerUID
column has just been set to `create_uid` of each row, so we read it off as
`create_uid`. -/
def groupUids (rows : List Row) (n : String) : List String :=
  dedupF ((rows.filter (fun r => r.name == n)).map create_uid)

/-- Dictionary entries the group with display name `n` contributes:
when the group has a separator-bearing UID (`with_asmo` nonempty) every
separator-free UID is mapped to the first separator-bearing one
(`mapping[wo] = with_asmo[0]`); otherwise, or when there is no
separator-free UID, the group contributes nothing. -/
def entriesFor (rows : List Row) (n : String) : List (String × String) :=
  match (groupUids rows n).find? (fun u => hasSep u) with
  | some c => ((groupUids rows n).filter (fun u => !(hasSep u))).map (fun w => (w, c))
  | none => []

/-- Distinct display names of the batch.  (pandas `groupby` iterates groups
in sorted-name order; the dictionary built below has at most one entry per
name, so its contents do not depend on the iteration order and we keep
first-appearance order.) -/
def namesOf (rows : List Row) : List String := dedupF (rows.map (fun r => r.name))

/-- The dictionary `mapping` built in `normalize_ids`. -/
def mappingOf (rows : List Row) : List (String × String) :=
  (namesOf rows).flatMap (fun n => entriesFor rows n)

/-- `Series.replace(mapping)` applied to one value: the mapped value when
the dictionary has the key, else the value itself. -/
def applyMap (m : List (String × String)) (u : String) : String :=
  match m.find? (fun p => p.1 == u) with
  | some p => p.2
  | none => u

/-- Per-row effect of `normalize_ids`: write the PlayerUID column
(`df["PlayerUID"] = df.apply(create_uid, axis=1)`) and the NormalizedUID
column (`df["PlayerUID"].replace(mapping)`). -/
def normRow (m : List (String × String)) (r : Row) : Row :=
  { r with playerUID := some (create_uid r),
           normalizedUID := some (applyMap m (create_uid r)) }

/-- `normalize_ids` of app.py: set the PlayerUID column to `create_uid` of
each row, build the per-name mapping from that column, and set the
NormalizedUID column to `PlayerUID.replace(mapping)`.  The mapping is built
from the name and PlayerUID columns only, and PlayerUID equals
`create_uid r` at that point, so `mappingOf` reads `create_uid` directly. -/
def normalize_ids (rows : List Row) : List Row :=
  rows.map (normRow (mappingOf rows))

/-- The sheet rows one uploaded batch contributes: normalize the batch,
keep the sheet columns, and stamp league / tournament / date onto every
row.  NormalizedUID is always set after `normalize_ids`; `getD ""` only
discharges the `Option`. -/
def storedOf (df : List Row) (league tname tdate : String) : List StoredRow :=
  (normalize_ids df).map (fun r =>
    { league := league, tournament := tname, date := tdate,
      normalizedUID := r.normalizedUID.getD "", name := r.name,
      username := r.username, asmo := r.asmo,
      points := r.points, rank := r.rank })

/-- `append_results` of app.py: append the batch's sheet rows to the stored
table (`get_as_dataframe(results_ws).append(df)`). -/
def append_results (df : List Row) (league tname tdate : String)
    (table : List StoredRow) : List StoredRow :=
  table ++ storedOf df league tname tdate

/-- `df.fillna("")` on one cell. -/
def fillNa (c : PCell) : PCell :=
  match c with
  | .null => .str ""
  | c => c

/-- Digit run to a natural number; fails on any non-digit character. -/
def parseDigitsAux : List Char → Nat → Option Nat
  | [], acc => some acc
  | c :: cs, acc =>
      if c.isDigit then parseDigitsAux cs (acc * 10 + (c.toNat - '0'.toNat))
      else none

/-- `pd.to_numeric(s, errors="coerce")` on a string cell, for the signed
whole-number strings this data set carries: optional minus sign followed by
a nonempty digit run; anything else (including `""`) coerces to NaN. -/
def parseIntString (s : String) : Option Int :=
  match stripChars s.data with
  | [] => none
  | '-' :: cs =>
      match cs with
      | [] => none
      | _ => (parseDigitsAux cs 0).map (fun n => -(n : Int))
  | cs => (parseDigitsAux cs 0).map (fun n => (n : Int))

/-- `pd.to_numeric(c, errors="coerce")`: numbers pass through, strings are
parsed, missing stays missing. -/
def toNumericCell (c : PCell) : Option Int :=
  match c with
  | .num n => some n
  | .str s => parseIntString s
  | .null => none

/-- The Points pipeline of `load_results_for_league`:
`fillna("")`, then `to_numeric(errors="coerce")`, then `fillna(0)`. -/
def coercePoints (c : PCell) : Int := (toNumericCell (fillNa c)).getD 0

/-- One stored row after the load pipeline (`fillna("")` on the string
columns, Points coerced to a number). -/
def loadRow (r : StoredRow) : LoadedRow :=
  { league := r.league, tournament := r.tournament, date := r.date,
    normalizedUID := r.normalizedUID, name := r.name,
    username := r.username.getD "", asmo := r.asmo.getD "",
    points := coercePoints r.points, rank := fillNa r.rank }

/-- `load_results_for_league` of app.py: empty table short-circuits, else
drop rows with missing League (League is written by `append_results` and is
never missing in this model), keep the selected league's rows, and coerce
Points. -/
def load_results_for_league (table : List StoredRow) (league : String) :
    List LoadedRow :=
  if table.isEmpty then []
  else (table.filter (fun r => r.league == league)).map loadRow

/-- Group key of the totals `groupby(["NormalizedUID", "TeamPlayers1Name"])`. -/
def keyOf (r : LoadedRow) : String × String := (r.normalizedUID, r.name)

/-- Lexicographic order on group keys; pandas `groupby(sort=True)` emits
groups in this order.  Strings compare by code-point lists, which is both
Python's string order and the order `String.lt` denotes. -/
def pairLe (a b : String × String) : Prop :=
  a.1.data < b.1.data ∨ (a.1 = b.1 ∧ a.2.data ≤ b.2.data)

instance : DecidableRel pairLe := fun a b =>
  inferInstanceAs (Decidable (a.1.data < b.1.data ∨ (a.1 = b.1 ∧ a.2.data ≤ b.2.data)))

/-- Number of rows of one NormalizedUID
(`df.groupby("NormalizedUID").size()`). -/
def sizeUID (df : List LoadedRow) (uid : String) : Nat :=
  df.countP (fun r => r.normalizedUID == uid)

/-- Summed raw points of one (NormalizedUID, name) group
(`.agg({"Points": "sum"})`). -/
def groupPoints (df : List LoadedRow) (k : String × String) : Int :=
  ((df.filter (fun r => r.normalizedUID == k.1 && r.name == k.2)).map
    (fun r => r.points)).sum

/-- Total Points of one group: group point sum plus the participation bonus
joined in by NormalizedUID (`Bonus = size * 5`, `Points + Bonus`). -/
def totalsOf (df : List LoadedRow) (k : String × String) : Int :=
  groupPoints df k + 5 * (sizeUID df k.1 : Int)

/-- Distinct (NormalizedUID, name) keys in the sorted order `groupby` emits. -/
def standingsKeys (df : List LoadedRow) : List (String × String) :=
  List.insertionSort pairLe (dedupF (df.map keyOf))

/-- Descending-total comparison used by
`sort_values("Total Points", ascending=False)`. -/
def byTotalDesc (a b : (String × String) × Int) : Prop := b.2 ≤ a.2

instance : DecidableRel byTotalDesc := fun a b =>
  inferInstanceAs (Decidable (b.2 ≤ a.2))

/-- The group totals table after `sort_values("Total Points",
ascending=False)`.  (The source leaves pandas' default sort kind, whose
behaviour on equal totals is not specified; this embedding uses a stable
sort, read the tie order off it with that caveat.) -/
def sortedTotals (df : List LoadedRow) : List ((String × String) × Int) :=
  List.insertionSort byTotalDesc
    ((standingsKeys df).map (fun k => (k, totalsOf df k)))

/-- `compute_standings` of app.py: empty input short-circuits; otherwise
group totals with the +5-per-appearance bonus, sort by Total Points
descending, and assign min-method ranks
(`rank(method="min", ascending=False)`: one plus the number of strictly
larger column values). -/
def compute_standings (df : List LoadedRow) : List SRow :=
  if df.isEmpty then []
  else
    (sortedTotals df).map (fun kt =>
      { rank := 1 + ((sortedTotals df).countP (fun x => kt.2 < x.2) : Int),
        player := kt.1.2, totalPoints := kt.2 })

/-- The row carries a usable secondary token: AsmoConnect id present and
not blank after stripping (the `create_uid` condition). -/
def tokenPresent (r : Row) : Bool :=
  match r.asmo with
  | some a => !(isBlank a)
  | none => false

/-- Token test on a stored row, same condition as `tokenPresent`. -/
def storedTokenPresent (r : StoredRow) : Bool :=
  match r.asmo with
  | some a => !(isBlank a)
  | none => false

/-- Base (pre-existing) fields of an uploaded row: everything except the
two UID columns `normalize_ids` writes. -/
structure BaseRow where
  name : String
  asmo : Option String
  username : Option String
  points : PCell
  rank : PCell
deriving DecidableEq, Repr

/-- Projection onto the base fields. -/
def baseOf (r : Row) : BaseRow :=
  { name := r.name, asmo := r.asmo, username := r.username,
    points := r.points, rank := r.rank }

/-- The NormalizedUID assignment the spec's normalization policy describes,
written from the spec's words for comparison with `normalize_ids`: a
with-token UID (one containing the separator) always stands for itself;
a without-token UID is remapped to the first with-token UID encountered
among its display name's rows exactly when that name has at least one
with-token and at least one without-token UID. -/
def specNormalizedUID (rows : List Row) (r : Row) : String :=
  let u := create_uid r
  let uids := (rows.filter (fun x => x.name == r.name)).map create_uid
  if hasSep u then u
  else if (uids.find? (fun x => hasSep x)).isSome
          && uids.any (fun x => !(hasSep x)) then
    (uids.find? (fun x => hasSep x)).getD u
  else u

/-- The table-wide invariant claim C1 asserts of every reachable stored
table: for each display name with a token-bearing row somewhere in the
table, one canonical separator-bearing UID exists onto which every
token-less row of that name has been collapsed. -/
def C1TableClaim (T : List StoredRow) : Prop :=
  ∀ n : String,
    (∃ r ∈ T, r.name = n ∧ storedTokenPresent r = true) →
    ∃ c, hasSep c = true ∧
      ∀ r ∈ T, r.name = n → storedTokenPresent r = false → r.normalizedUID = c

/-- The rank formula claim C3 asserts: every standings row's rank equals
one plus the number of distinct totals strictly greater than its total. -/
def c3DistinctRankHolds (df : List LoadedRow) : Bool :=
  (compute_standings df).all fun e =>
    e.rank == 1 + ((dedupF ((compute_standings df).map
      (fun x => x.totalPoints))).countP (fun t => e.totalPoints < t) : Int)

/-! ### Concrete example inputs used by witnesses and counterexamples -/

/-- Spec §8 scenario batch: Alice token-less and Alice with token X1. -/
def exBatchAlice : List Row :=
  [{ name := "Alice", asmo := none, username := none,
     points := .num 10, rank := .null },
   { name := "Alice", asmo := some "X1", username := none,
     points := .num 5, rank := .null }]

/-- Token-less Alice ingested first, token-bearing Alice ingested in a
later batch: the table claim C1 quantifies over. -/
def exTableCross : List StoredRow :=
  append_results
    [{ name := "Alice", asmo := some "X", username := none,
       points := .num 4, rank := .null }]
    "L" "T2" "D2"
    (append_results
      [{ name := "Alice", asmo := none, username := none,
         points := .num 3, rank := .null }]
      "L" "T1" "D1" [])

/-- The stored row of the first (token-less) Alice batch inside
`exTableCross`, whose NormalizedUID stays "Alice". -/
def exRowStale : StoredRow :=
  { league := "L", tournament := "T1", date := "D1", normalizedUID := "Alice",
    name := "Alice", username := none, asmo := none,
    points := .num 3, rank := .null }

/-- League history with totals 100, 100, 80 (95+5, 95+5, 75+5). -/
def exDfTie : List LoadedRow :=
  [{ league := "L", tournament := "T", date := "D", normalizedUID := "A",
     name := "A", username := "", asmo := "", points := 95, rank := .str "" },
   { league := "L", tournament := "T", date := "D", normalizedUID := "B",
     name := "B", username := "", asmo := "", points := 95, rank := .str "" },
   { league := "L", tournament := "T", date := "D", normalizedUID := "C",
     name := "C", username := "", asmo := "", points := 75, rank := .str "" }]

/-- Batch in which two different display names ("a__b" token-less and "a"
with token "b") produce the same NormalizedUID "a__b". -/
def exBatchCollide : List Row :=
  [{ name := "a__b", asmo := none, username := none,
     points := .num 1, rank := .null },
   { name := "a", asmo := some "b", username := none,
     points := .num 2, rank := .null }]

/-- The stored table after ingesting `exBatchCollide`. -/
def exTableCollide : List StoredRow := append_results exBatchCollide "L" "T" "D" []

/-- The loaded league history of `exTableCollide`. -/
def exDfCollide : List LoadedRow := load_results_for_league exTableCollide "L"

/-- Spec §8 snapshot scenario: Bob appears in three tournaments with raw
points 10, 0 and 20. -/
def exDfBob : List LoadedRow :=
  [{ league := "L", tournament := "T1", date := "D1", normalizedUID := "Bob",
     name := "Bob", username := "", asmo := "", points := 10, rank := .str "" },
   { league := "L", tournament := "T2", date := "D2", normalizedUID := "Bob",
     name := "Bob", username := "", asmo := "", points := 0, rank := .str "" },
   { league := "L", tournament := "T3", date := "D3", normalizedUID := "Bob",
     name := "Bob", username := "", asmo := "", points := 20, rank := .str "" }]

/-- The third standings row of `exDfTie` (total 80, rank 3). -/
def exSRowC : SRow := { rank := 3, player := "C", totalPoints := 80 }

/-- Stored row whose Points cell is missing. -/
def exRowMissing : StoredRow :=
  { league := "L", tournament := "T", date := "D", normalizedUID := "P",
    name := "P", username := none, asmo := none,
    points := .null, rank := .null }

/-- Stored table containing only `exRowMissing`. -/
def exStoredMissing : List StoredRow := [exRowMissing]

/-! ### Basic lemmas about the dedup and separator helpers -/

theorem mem_dedupAux {α : Type} [DecidableEq α] (fuel : Nat) :
    ∀ (l : List α), l.length ≤ fuel → ∀ x, (x ∈ dedupAux fuel l ↔ x ∈ l) := by
  induction fuel with
  | zero =>
    intro l hl x
    cases l with
    | nil => simp [dedupAux]
    | cons a xs => simp at hl
  | succ n ih =>
    intro l hl x
    cases l with
    | nil => simp [dedupAux]
    | cons a xs =>
      have hl' : xs.length ≤ n := by simp at hl; omega
      have hlen : (xs.filter (fun y => decide (y ≠ a))).length ≤ n :=
        le_trans (List.length_filter_le _ _) hl'
      simp only [dedupAux, List.mem_cons, ih _ hlen x, List.mem_filter,
        decide_eq_true_eq]
      by_cases h : x = a
      · simp [h]
      · simp [h]

theorem mem_dedupF {α : Type} [DecidableEq α] (l : List α) (x : α) :
    x ∈ dedupF l ↔ x ∈ l :=
  mem_dedupAux l.length l le_rfl x

theorem nodup_dedupAux {α : Type} [DecidableEq α] (fuel : Nat) :
    ∀ (l : List α), l.length ≤ fuel → (dedupAux fuel l).Nodup := by
  induction fuel with
  | zero =>
    intro l hl
    cases l with
    | nil => simp [dedupAux]
    | cons a xs => simp at hl
  | succ n ih =>
    intro l hl
    cases l with
    | nil => simp [dedupAux]
    | cons a xs =>
      have hl' : xs.length ≤ n := by simp at hl; omega
      have hlen : (xs.filter (fun y => decide (y ≠ a))).length ≤ n :=
        le_trans (List.length_filter_le _ _) hl'
      simp only [dedupAux, List.nodup_cons]
      refine ⟨fun hmem => ?_, ih _ hlen⟩
      rw [mem_dedupAux n _ hlen] at hmem
      simp [List.mem_filter] at hmem

theorem nodup_dedupF {α : Type} [DecidableEq α] (l : List α) :
    (dedupF l).Nodup :=
  nodup_dedupAux l.length l le_rfl

theorem find?_filter_ne {α : Type} [DecidableEq α] (p : α → Bool) (l : List α)
    (a : α) (ha : p a = false) :
    (l.filter (fun y => decide (y ≠ a))).find? p = l.find? p := by
  induction l with
  | nil => rfl
  | cons x xs ih =>
    by_cases hx : x = a
    · subst hx
      have h1 : (x :: xs).filter (fun y => decide (y ≠ x))
          = xs.filter (fun y => decide (y ≠ x)) := by
        rw [List.filter_cons]; simp
      rw [h1, ih, List.find?_cons_of_neg _ (by simp [ha])]
    · have h1 : (x :: xs).filter (fun y => decide (y ≠ a))
          = x :: xs.filter (fun y => decide (y ≠ a)) := by
        rw [List.filter_cons]; simp [hx]
      rw [h1]
      by_cases hp : p x = true
      · rw [List.find?_cons_of_pos _ hp, List.find?_cons_of_pos _ hp]
      · rw [List.find?_cons_of_neg _ hp, List.find?_cons_of_neg _ hp, ih]

theorem find?_dedupAux {α : Type} [DecidableEq α] (p : α → Bool) (fuel : Nat) :
    ∀ (l : List α), l.length ≤ fuel → (dedupAux fuel l).find? p = l.find? p := by
  induction fuel with
  | zero =>
    intro l hl
    cases l with
    | nil => simp [dedupAux]
    | cons a xs => simp at hl
  | succ n ih =>
    intro l hl
    cases l with
    | nil => simp [dedupAux]
    | cons a xs =>
      have hl' : xs.length ≤ n := by simp at hl; omega
      have hlen : (xs.filter (fun y => decide (y ≠ a))).length ≤ n :=
        le_trans (List.length_filter_le _ _) hl'
      show (a :: dedupAux n (xs.filter (fun y => decide (y ≠ a)))).find? p
          = (a :: xs).find? p
      by_cases hp : p a = true
      · rw [List.find?_cons_of_pos _ hp, List.find?_cons_of_pos _ hp]
      · have ha : p a = false := by simpa using hp
        rw [List.find?_cons_of_neg _ hp, List.find?_cons_of_neg _ hp,
          ih _ hlen, find?_filter_ne p xs a ha]

theorem find?_dedupF {α : Type} [DecidableEq α] (p : α → Bool) (l : List α) :
    (dedupF l).find? p = l.find? p :=
  find?_dedupAux p l.length l le_rfl

theorem hasDoubleUnderscore_append (xs ys : List Char) :
    hasDoubleUnderscore (xs ++ '_' :: '_' :: ys) = true := by
  induction xs with
  | nil => simp [hasDoubleUnderscore]
  | cons x xs ih =>
    cases xs with
    | nil => simp_all [hasDoubleUnderscore]
    | cons y ys' => simp_all [hasDoubleUnderscore]

theorem hasSep_sep_uid (n a : String) : hasSep (n ++ "__" ++ a) = true := by
  have h : (n ++ "__" ++ a).data = n.data ++ '_' :: '_' :: a.data := by
    simp [String.data_append]
  rw [hasSep, h]
  exact hasDoubleUnderscore_append _ _

/-- A token-bearing row's PlayerUID contains the separator. -/
theorem hasSep_create_uid_of_token (r : Row) (h : tokenPresent r = true) :
    hasSep (create_uid r) = true := by
  unfold tokenPresent at h
  unfold create_uid
  cases hasmo : r.asmo with
  | none => rw [hasmo] at h; simp at h
  | some a =>
    rw [hasmo] at h
    simp only [Bool.not_eq_true'] at h
    simp only [h, if_false]
    exact hasSep_sep_uid r.name a

/-- A separator-free PlayerUID is the row's display name. -/
theorem create_uid_eq_name_of_not_sep (r : Row) (h : hasSep (create_uid r) = false) :
    create_uid r = r.name := by
  cases hasmo : r.asmo with
  | none => simp [create_uid, hasmo]
  | some a =>
    cases ht : isBlank a with
    | true => simp [create_uid, hasmo, ht]
    | false =>
      have hcu : create_uid r = r.name ++ "__" ++ a := by
        simp [create_uid, hasmo, ht]
      rw [hcu, hasSep_sep_uid r.name a] at h
      exact absurd h (by simp)

/-! ### Structure of the normalization mapping -/

/-- A separator-free UID observed in the group of display name `n` is `n`
itself (token-less rows contribute their name; token-bearing rows always
contribute a separator-bearing UID). -/
theorem eq_name_of_mem_groupUids_not_sep (rows : List Row) (n x : String)
    (hx : x ∈ groupUids rows n) (hsep : hasSep x = false) : x = n := by
  unfold groupUids at hx
  rw [mem_dedupF] at hx
  obtain ⟨r, hr, rfl⟩ := List.mem_map.mp hx
  obtain ⟨hrmem, hrname⟩ := List.mem_filter.mp hr
  have hname : r.name = n := by simpa using hrname
  rw [create_uid_eq_name_of_not_sep r hsep, hname]

/-- Every dictionary entry contributed by the group of name `n` has key `n`
(separator-free) and as value the group's first separator-bearing UID. -/
theorem entriesFor_shape (rows : List Row) (n : String) (k v : String)
    (h : (k, v) ∈ entriesFor rows n) :
    hasSep k = false ∧ k = n ∧
      (groupUids rows n).find? (fun u => hasSep u) = some v := by
  unfold entriesFor at h
  cases hfind : (groupUids rows n).find? (fun u => hasSep u) with
  | none => rw [hfind] at h; simp at h
  | some c =>
    rw [hfind] at h
    obtain ⟨w, hw, heq⟩ := List.mem_map.mp h
    obtain ⟨hwk, hwv⟩ := Prod.mk.injEq .. ▸ heq
    subst hwk; subst hwv
    obtain ⟨hwmem, hwsep⟩ := List.mem_filter.mp hw
    have hsepw : hasSep w = false := by simpa using hwsep
    exact ⟨hsepw, eq_name_of_mem_groupUids_not_sep rows n w hwmem hsepw, rfl⟩

/-- A row's PlayerUID is observed in its own name's group. -/
theorem create_uid_mem_groupUids (rows : List Row) (r : Row) (hr : r ∈ rows) :
    create_uid r ∈ groupUids rows r.name := by
  unfold groupUids
  rw [mem_dedupF]
  exact List.mem_map_of_mem _ (List.mem_filter.mpr ⟨hr, by simp⟩)

/-- A row's display name is among the grouped names. -/
theorem name_mem_namesOf (rows : List Row) (r : Row) (hr : r ∈ rows) :
    r.name ∈ namesOf rows := by
  unfold namesOf
  rw [mem_dedupF]
  exact List.mem_map_of_mem _ hr

/-- Keystone: on the PlayerUID of a row of the batch, the dictionary
replacement of `normalize_ids` computes exactly the spec's normalization
policy `specNormalizedUID`. -/
theorem applyMap_mappingOf (rows : List Row) (r : Row) (hr : r ∈ rows) :
    applyMap (mappingOf rows) (create_uid r) = specNormalizedUID rows r := by
  by_cases hu : hasSep (create_uid r) = true
  · -- with-token UIDs are never dictionary keys, so they stand for themselves
    have hnone : (mappingOf rows).find? (fun p => p.1 == create_uid r) = none := by
      rw [List.find?_eq_none]
      intro e he hpe
      obtain ⟨n, hn, hen⟩ := List.mem_flatMap.mp (by rwa [mappingOf] at he)
      obtain ⟨hsep, _, _⟩ :=
        entriesFor_shape rows n e.1 e.2 (by rw [Prod.mk.eta]; exact hen)
      have he1 : e.1 = create_uid r := by simpa using hpe
      rw [he1, hu] at hsep
      cases hsep
    rw [applyMap, hnone]
    simp [specNormalizedUID, hu]
  · have hu' : hasSep (create_uid r) = false := by simpa using hu
    have huname : create_uid r = r.name := create_uid_eq_name_of_not_sep r hu'
    cases hfind : ((rows.filter (fun x => x.name == r.name)).map create_uid).find?
        (fun x => hasSep x) with
    | none =>
      -- the name's group has no with-token UID: no dictionary entry for it
      have hfindD : (groupUids rows r.name).find? (fun x => hasSep x) = none := by
        unfold groupUids
        rw [find?_dedupF]
        exact hfind
      have hnone : (mappingOf rows).find? (fun p => p.1 == create_uid r) = none := by
        rw [List.find?_eq_none]
        intro e he hpe
        obtain ⟨n, hn, hen⟩ := List.mem_flatMap.mp (by rwa [mappingOf] at he)
        obtain ⟨hsep, hkey, hval⟩ :=
          entriesFor_shape rows n e.1 e.2 (by rw [Prod.mk.eta]; exact hen)
        have he1 : e.1 = create_uid r := by simpa using hpe
        rw [he1, huname] at hkey
        rw [← hkey, hfindD] at hval
        cases hval
      rw [applyMap, hnone]
      simp [specNormalizedUID, hu', hfind]
    | some c =>
      -- the name's group has a with-token UID, and the row itself supplies a
      -- without-token UID, so the dictionary maps the name to the first one
      have humem : create_uid r ∈
          (rows.filter (fun x => x.name == r.name)).map create_uid :=
        List.mem_map_of_mem _ (List.mem_filter.mpr ⟨hr, by simp⟩)
      have hfindD : (groupUids rows r.name).find? (fun x => hasSep x) = some c := by
        unfold groupUids
        rw [find?_dedupF]
        exact hfind
      have hkeymem : ((create_uid r, c) : String × String) ∈ entriesFor rows r.name := by
        rw [entriesFor, hfindD]
        apply List.mem_map_of_mem
        rw [List.mem_filter]
        refine ⟨?_, by simp [hu']⟩
        rw [huname]
        rw [huname] at humem
        unfold groupUids
        rw [mem_dedupF]
        exact humem
      have hmem : ((create_uid r, c) : String × String) ∈ mappingOf rows := by
        rw [mappingOf]
        exact List.mem_flatMap_of_mem (name_mem_namesOf rows r hr) hkeymem
      have hissome : ((mappingOf rows).find? (fun p => p.1 == create_uid r)).isSome := by
        rw [List.find?_isSome]
        exact ⟨(create_uid r, c), hmem, by simp⟩
      obtain ⟨e, hfe⟩ := Option.isSome_iff_exists.mp hissome
      have hpe := List.find?_some hfe
      have hemem : e ∈ mappingOf rows := List.mem_of_find?_eq_some hfe
      obtain ⟨n, hn, hen⟩ := List.mem_flatMap.mp (by rwa [mappingOf] at hemem)
      obtain ⟨hsep, hkey, hval⟩ :=
        entriesFor_shape rows n e.1 e.2 (by rw [Prod.mk.eta]; exact hen)
      have he1 : e.1 = create_uid r := by simpa using hpe
      have he2 : e.2 = c := by
        rw [he1, huname] at hkey
        rw [← hkey, hfindD] at hval
        exact (Option.some.injEq .. ▸ hval).symm
      have hany : ((rows.filter (fun x => x.name == r.name)).map create_uid).any
          (fun x => !(hasSep x)) = true :=
        List.any_eq_true.mpr ⟨create_uid r, humem, by simp [hu']⟩
      rw [applyMap, hfe]
      show e.2 = specNormalizedUID rows r
      rw [he2]
      simp [specNormalizedUID, hu', hfind, hany]

/-! ### Normalization leaves the grouping data unchanged -/

theorem filter_name_normalize (rows : List Row) (n : String) :
    (normalize_ids rows).filter (fun r => r.name == n)
      = (rows.filter (fun r => r.name == n)).map (normRow (mappingOf rows)) := by
  unfold normalize_ids
  rw [List.filter_map]
  congr 1

theorem groupUids_normalize (rows : List Row) (n : String) :
    groupUids (normalize_ids rows) n = groupUids rows n := by
  unfold groupUids
  rw [filter_name_normalize, List.map_map]
  congr 1

theorem namesOf_normalize (rows : List Row) :
    namesOf (normalize_ids rows) = namesOf rows := by
  unfold namesOf normalize_ids
  rw [List.map_map]
  congr 1

theorem entriesFor_normalize (rows : List Row) (n : String) :
    entriesFor (normalize_ids rows) n = entriesFor rows n := by
  unfold entriesFor
  rw [groupUids_normalize]

theorem mappingOf_normalize (rows : List Row) :
    mappingOf (normalize_ids rows) = mappingOf rows := by
  unfold mappingOf
  rw [namesOf_normalize]
  congr 1
  funext n
  exact entriesFor_normalize rows n

/-! ### Claim theorems on normalization -/

/-- C2: `normalize_ids` writes PlayerUID = `create_uid` of every row
(display name when the token is absent or blank, name__token otherwise),
and NormalizedUID follows the spec's remapping policy `specNormalizedUID`:
for a display name with at least one with-token and at least one
without-token PlayerUID, every without-token row of that name receives the
first with-token UID encountered; otherwise every row keeps its own
PlayerUID, and with-token UIDs are never merged with each other. -/
theorem claim2_normalize_ids_functional (rows : List Row) :
    ((normalize_ids rows).map (fun r => r.playerUID)
      = rows.map (fun r => some (create_uid r)))
    ∧ ((normalize_ids rows).map (fun r => r.normalizedUID)
      = rows.map (fun r => some (specNormalizedUID rows r))) := by
  constructor
  · unfold normalize_ids
    rw [List.map_map]
    exact List.map_congr_left (fun a ha => rfl)
  · unfold normalize_ids
    rw [List.map_map]
    apply List.map_congr_left
    intro a ha
    show some (applyMap (mappingOf rows) (create_uid a)) = _
    rw [applyMap_mappingOf rows a ha]

/-- C8: normalization is idempotent — re-running `normalize_ids` on an
already-normalized batch reproduces the same rows, in particular the same
NormalizedUID assignment. -/
theorem claim8_normalize_idempotent (rows : List Row) :
    normalize_ids (normalize_ids rows) = normalize_ids rows := by
  have h : normalize_ids (normalize_ids rows)
      = (normalize_ids rows).map (normRow (mappingOf (normalize_ids rows))) := rfl
  rw [h, mappingOf_normalize]
  have h2 : normalize_ids rows = rows.map (normRow (mappingOf rows)) := rfl
  rw [h2, List.map_map]
  exact List.map_congr_left (fun a ha => rfl)

/-- C9: the normalization / aggregation core is total in this embedding
(no exception paths exist), and a zero-row input is valid: `normalize_ids`
maps the empty batch to the empty batch and `compute_standings` maps the
empty history to the empty standings table. -/
theorem claim9_empty_safe :
    normalize_ids ([] : List Row) = [] ∧
    compute_standings ([] : List LoadedRow) = [] := by
  constructor
  · rfl
  · rfl

/-- C10: `normalize_ids` returns the same rows in the same order with every
pre-existing field (name, token, username, points, rank) unchanged, and
only fills in the PlayerUID and NormalizedUID columns. -/
theorem claim10_frame (rows : List Row) :
    ((normalize_ids rows).map baseOf = rows.map baseOf)
    ∧ ((normalize_ids rows).all
        (fun r => r.playerUID.isSome && r.normalizedUID.isSome)) = true := by
  constructor
  · unfold normalize_ids
    rw [List.map_map]
    exact List.map_congr_left (fun a ha => rfl)
  · rw [List.all_eq_true]
    intro x hx
    obtain ⟨a, ha, rfl⟩ := List.mem_map.mp hx
    rfl

/-! ### Claims C1 and C6 -/

theorem create_uid_eq_name_of_no_token (r : Row) (h : tokenPresent r = false) :
    create_uid r = r.name := by
  cases hasmo : r.asmo with
  | none => simp [create_uid, hasmo]
  | some a =>
    have hta : isBlank a = true := by
      unfold tokenPresent at h
      rw [hasmo] at h
      simpa using h
    simp [create_uid, hasmo, hta]

/-- C1 (amended): per ingested batch, for a display name that does not
itself contain the separator, at most one separator-bearing NormalizedUID
is canonical for that name and every token-less row of that name collapses
onto it whenever a token-bearing row of that name exists in the same batch.
(`append_results` stores these normalized rows verbatim, but never
re-normalizes rows stored by earlier batches.) -/
theorem claim1_amended_batch_invariant (rows : List Row) (n : String)
    (hn : hasSep n = false)
    (htok : ∃ r ∈ rows, r.name = n ∧ tokenPresent r = true) :
    ∃ c, hasSep c = true ∧
      ∀ x ∈ normalize_ids rows, x.name = n → tokenPresent x = false →
        x.normalizedUID = some c := by
  obtain ⟨r0, hr0, hr0n, hr0t⟩ := htok
  have hmem0 : create_uid r0 ∈ (rows.filter (fun x => x.name == n)).map create_uid := by
    apply List.mem_map_of_mem
    rw [List.mem_filter]
    exact ⟨hr0, by simp [hr0n]⟩
  have hsep0 : hasSep (create_uid r0) = true := hasSep_create_uid_of_token r0 hr0t
  have hissome : (((rows.filter (fun x => x.name == n)).map create_uid).find?
      (fun x => hasSep x)).isSome := by
    rw [List.find?_isSome]
    exact ⟨create_uid r0, hmem0, hsep0⟩
  obtain ⟨c, hc⟩ := Option.isSome_iff_exists.mp hissome
  have hcsep : hasSep c = true := List.find?_some hc
  refine ⟨c, hcsep, ?_⟩
  intro x hx hxn hxt
  unfold normalize_ids at hx
  obtain ⟨a, ha, rfl⟩ := List.mem_map.mp hx
  have han : a.name = n := hxn
  have hat : tokenPresent a = false := hxt
  have hcu : create_uid a = n := by
    rw [create_uid_eq_name_of_no_token a hat, han]
  have hsepa : hasSep (create_uid a) = false := by rw [hcu]; exact hn
  have hmema : create_uid a ∈ (rows.filter (fun x => x.name == n)).map create_uid :=
    List.mem_map_of_mem _ (List.mem_filter.mpr ⟨ha, by simp [han]⟩)
  have hany : ((rows.filter (fun x => x.name == n)).map create_uid).any
      (fun x => !(hasSep x)) = true :=
    List.any_eq_true.mpr ⟨create_uid a, hmema, by simp [hsepa]⟩
  show some (applyMap (mappingOf rows) (create_uid a)) = some c
  rw [applyMap_mappingOf rows a ha]
  have hspec : specNormalizedUID rows a = c := by
    simp only [specNormalizedUID, han, hsepa, hc, hany]
    simp
  rw [hspec]

/-- Witness for the amended C1 at the spec's Alice scenario batch. -/
theorem claim1_amended_witness :
    ∃ c, hasSep c = true ∧
      ∀ x ∈ normalize_ids exBatchAlice, x.name = "Alice" →
        tokenPresent x = false → x.normalizedUID = some c :=
  claim1_amended_batch_invariant exBatchAlice "Alice" (by decide) (by decide)

/-- C1 as stated is false: normalization is per-batch, so after ingesting
token-less Alice and then token-bearing Alice in a later batch, the stored
table holds a token-bearing Alice row while the token-less Alice row's
NormalizedUID "Alice" was never collapsed onto any separator-bearing UID. -/
theorem claim1_counterexample : ¬ C1TableClaim exTableCross := by
  intro h
  obtain ⟨c, hc, hall⟩ := h "Alice" (by decide)
  have h1 := hall exRowStale (by decide) rfl (by decide)
  rw [← h1] at hc
  exact absurd hc (by decide)

/-- C6: a stored row of the selected league whose Points cell is missing or
not parseable as a number is kept by `load_results_for_league` (never
dropped, no error signalled), and its loaded Points value is 0. -/
theorem claim6_points_coercion (table : List StoredRow) (lg : String)
    (r : StoredRow) (hr : r ∈ table) (hlg : r.league = lg)
    (hbad : toNumericCell (fillNa r.points) = none) :
    loadRow r ∈ load_results_for_league table lg ∧ (loadRow r).points = 0 := by
  have hne : table.isEmpty = false := by
    cases table with
    | nil => cases hr
    | cons a l => rfl
  constructor
  · unfold load_results_for_league
    rw [if_neg (by simp [hne])]
    exact List.mem_map_of_mem _ (List.mem_filter.mpr ⟨hr, by simp [hlg]⟩)
  · show coercePoints r.points = 0
    unfold coercePoints
    rw [hbad]
    rfl

/-- Witness for C6 at a one-row table whose Points cell is missing. -/
theorem claim6_points_coercion_witness :
    loadRow exRowMissing ∈ load_results_for_league exStoredMissing "L"
      ∧ (loadRow exRowMissing).points = 0 :=
  claim6_points_coercion exStoredMissing "L" exRowMissing (by decide) rfl (by decide)

/-! ### Order facts for the two sorts -/

instance : IsTotal (String × String) pairLe :=
  ⟨fun a b => by
    rcases lt_trichotomy a.1.data b.1.data with h | h | h
    · exact Or.inl (Or.inl h)
    · have hab : a.1 = b.1 := String.toList_inj.mp h
      rcases le_total a.2.data b.2.data with h2 | h2
      · exact Or.inl (Or.inr ⟨hab, h2⟩)
      · exact Or.inr (Or.inr ⟨hab.symm, h2⟩)
    · exact Or.inr (Or.inl h)⟩

instance : IsTrans (String × String) pairLe :=
  ⟨fun a b c hab hbc => by
    rcases hab with h1 | ⟨h1, h1'⟩
    · rcases hbc with h2 | ⟨h2, h2'⟩
      · exact Or.inl (lt_trans h1 h2)
      · refine Or.inl ?_
        rw [← h2]
        exact h1
    · rcases hbc with h2 | ⟨h2, h2'⟩
      · refine Or.inl ?_
        rw [h1]
        exact h2
      · exact Or.inr ⟨h1.trans h2, le_trans h1' h2'⟩⟩

instance : IsAntisymm (String × String) pairLe :=
  ⟨fun a b hab hba => by
    rcases hab with h1 | ⟨h1, h1'⟩
    · rcases hba with h2 | ⟨h2, h2'⟩
      · exact absurd (lt_trans h1 h2) (lt_irrefl _)
      · rw [h2] at h1
        exact absurd h1 (lt_irrefl _)
    · rcases hba with h2 | ⟨h2, h2'⟩
      · rw [h1] at h2
        exact absurd h2 (lt_irrefl _)
      · have h2d : a.2 = b.2 := String.toList_inj.mp (le_antisymm h1' h2')
        exact Prod.ext h1 h2d⟩

instance : IsTotal ((String × String) × Int) byTotalDesc :=
  ⟨fun a b => le_total b.2 a.2⟩

instance : IsTrans ((String × String) × Int) byTotalDesc :=
  ⟨fun _ _ _ hab hbc => le_trans hbc hab⟩

/-! ### Structure of compute_standings -/

/-- The empty-input guard of `compute_standings` agrees with the general
formula, so the function is its sorted-map body unconditionally. -/
theorem compute_standings_eq (df : List LoadedRow) :
    compute_standings df = (sortedTotals df).map (fun kt =>
      ({ rank := 1 + ((sortedTotals df).countP (fun x => kt.2 < x.2) : Int),
         player := kt.1.2, totalPoints := kt.2 } : SRow)) := by
  cases df with
  | nil => rfl
  | cons a l => rfl

theorem mem_standingsKeys (df : List LoadedRow) (k : String × String) :
    k ∈ standingsKeys df ↔ k ∈ df.map keyOf := by
  unfold standingsKeys
  rw [(List.perm_insertionSort pairLe _).mem_iff, mem_dedupF]

/-! ### Claim C3: rank assignment -/

/-- C3 (amended): in the output of `compute_standings`, every row's rank
equals one plus the number of standings rows with a strictly greater total
(pandas `rank(method="min")`: ties counted with multiplicity, not one plus
the number of distinct greater totals), and rows tied on the same total
share the same rank. -/
theorem claim3_rank_min_method (df : List LoadedRow) :
    (∀ e ∈ compute_standings df,
      e.rank = 1 + ((compute_standings df).countP
        (fun x => e.totalPoints < x.totalPoints) : Int))
    ∧ ∀ e1 ∈ compute_standings df, ∀ e2 ∈ compute_standings df,
        e1.totalPoints = e2.totalPoints → e1.rank = e2.rank := by
  have hmain : ∀ e ∈ compute_standings df,
      e.rank = 1 + ((compute_standings df).countP
        (fun x => e.totalPoints < x.totalPoints) : Int) := by
    intro e he
    rw [compute_standings_eq] at he
    obtain ⟨kt, hkt, rfl⟩ := List.mem_map.mp he
    rw [compute_standings_eq, List.countP_map]
    rfl
  refine ⟨hmain, ?_⟩
  intro e1 he1 e2 he2 htot
  rw [hmain e1 he1, hmain e2 he2, htot]

/-- Witness for the amended C3: the 80-total row of the 100/100/80 history
has rank 3 = 1 + two rows with strictly greater totals. -/
theorem claim3_rank_witness :
    exSRowC.rank = 1 + ((compute_standings exDfTie).countP
      (fun x => exSRowC.totalPoints < x.totalPoints) : Int) :=
  (claim3_rank_min_method exDfTie).1 exSRowC (by decide)

/-- C3 as stated is false: on totals 100/100/80 the code assigns ranks
1, 1, 3 (as the claim's own example says), but the claim's formula
"1 + count of distinct totals strictly greater" would assign the third row
rank 1 + 1 = 2. -/
theorem claim3_counterexample :
    c3DistinctRankHolds exDfTie = false
      ∧ (compute_standings exDfTie).map (fun e => e.rank) = [1, 1, 3] :=
  ⟨by decide, by decide⟩

/-! ### Claim C5: totals with the appearance bonus -/

/-- C5 (amended): totals are computed per (NormalizedUID, display name)
group while the +5 appearance bonus joins in per NormalizedUID alone.
Whenever every row of a NormalizedUID carries a single display name (any
history the identity normalizer itself produces from distinct names, and
the typical case), the standings report for that player a total equal to
the sum of the player's raw points plus 5 per row, as the claim states. -/
theorem claim5_totals_amended (df : List LoadedRow) (uid pname : String)
    (hex : ∃ r ∈ df, r.normalizedUID = uid ∧ r.name = pname)
    (huniq : ∀ r ∈ df, r.normalizedUID = uid → r.name = pname) :
    ∃ e ∈ compute_standings df, e.player = pname ∧
      e.totalPoints = ((df.filter (fun r => r.normalizedUID == uid)).map
          (fun r => r.points)).sum
        + 5 * (df.countP (fun r => r.normalizedUID == uid) : Int) := by
  obtain ⟨r0, hr0, hr0u, hr0n⟩ := hex
  have hkey : (uid, pname) ∈ standingsKeys df := by
    rw [mem_standingsKeys, List.mem_map]
    refine ⟨r0, hr0, ?_⟩
    rw [keyOf, hr0u, hr0n]
  have hsorted : ((uid, pname), totalsOf df (uid, pname)) ∈ sortedTotals df := by
    unfold sortedTotals
    rw [(List.perm_insertionSort byTotalDesc _).mem_iff]
    exact List.mem_map_of_mem _ hkey
  have hmem_out :
      (fun kt => ({ rank := 1 + ((sortedTotals df).countP (fun x => kt.2 < x.2) : Int),
                    player := kt.1.2, totalPoints := kt.2 } : SRow))
        ((uid, pname), totalsOf df (uid, pname)) ∈ compute_standings df := by
    rw [compute_standings_eq]
    exact List.mem_map_of_mem _ hsorted
  refine ⟨_, hmem_out, rfl, ?_⟩
  show totalsOf df (uid, pname) = _
  unfold totalsOf groupPoints sizeUID
  have hfe : df.filter (fun r => r.normalizedUID == (uid, pname).1
        && r.name == (uid, pname).2)
      = df.filter (fun r => r.normalizedUID == uid) := by
    apply List.filter_congr
    intro r hrr
    by_cases hu : r.normalizedUID = uid
    · have hn := huniq r hrr hu
      simp [hu, hn]
    · simp [hu]
  rw [hfe]

/-- Witness for the amended C5: Bob with raw points 10, 0, 20 over three
rows totals 30 + 5 * 3 = 45. -/
theorem claim5_totals_witness :
    ∃ e ∈ compute_standings exDfBob, e.player = "Bob" ∧
      e.totalPoints = ((exDfBob.filter (fun r => r.normalizedUID == "Bob")).map
          (fun r => r.points)).sum
        + 5 * (exDfBob.countP (fun r => r.normalizedUID == "Bob") : Int) :=
  claim5_totals_amended exDfBob "Bob" "Bob" (by decide) (by decide)

/-- C5 as stated is false: in the reachable history `exDfCollide` the
NormalizedUID "a__b" has rows (raw points 1 and 2) under two display names,
so the claim's formula demands a reported total of 3 + 5 * 2 = 13, but the
standings report the totals 12 and 11 and no row with total 13. -/
theorem claim5_counterexample :
    ((exDfCollide.filter (fun r => r.normalizedUID == "a__b")).map
        (fun r => r.points)).sum
      + 5 * (exDfCollide.countP (fun r => r.normalizedUID == "a__b") : Int) = 13
    ∧ (compute_standings exDfCollide).all (fun e => e.totalPoints != 13) = true
    ∧ (compute_standings exDfCollide).map (fun e => (e.player, e.totalPoints))
        = [("a", 12), ("a__b", 11)] :=
  ⟨by decide, by decide, by decide⟩

/-! ### Claim C7: batch order commutes -/

theorem load_eq (table : List StoredRow) (lg : String) :
    load_results_for_league table lg
      = (table.filter (fun r => r.league == lg)).map loadRow := by
  cases table with
  | nil => rfl
  | cons a l => rfl

theorem dedupF_perm_of_perm {α : Type} [DecidableEq α] {l1 l2 : List α}
    (h : l1.Perm l2) : (dedupF l1).Perm (dedupF l2) := by
  apply List.perm_of_nodup_nodup_toFinset_eq (nodup_dedupF l1) (nodup_dedupF l2)
  apply Finset.ext
  intro a
  simp only [List.mem_toFinset, mem_dedupF]
  exact h.mem_iff

theorem standingsKeys_perm_eq (df1 df2 : List LoadedRow) (h : df1.Perm df2) :
    standingsKeys df1 = standingsKeys df2 := by
  unfold standingsKeys
  have hperm : (dedupF (df1.map keyOf)).Perm (dedupF (df2.map keyOf)) :=
    dedupF_perm_of_perm (h.map keyOf)
  exact List.eq_of_perm_of_sorted
    ((List.perm_insertionSort pairLe _).trans
      (hperm.trans (List.perm_insertionSort pairLe _).symm))
    (List.sorted_insertionSort pairLe _)
    (List.sorted_insertionSort pairLe _)

theorem totalsOf_perm_eq (df1 df2 : List LoadedRow) (h : df1.Perm df2)
    (k : String × String) : totalsOf df1 k = totalsOf df2 k := by
  unfold totalsOf groupPoints sizeUID
  congr 1
  · exact List.Perm.sum_eq ((h.filter _).map _)
  · exact congrArg _ (congrArg _ (h.countP_eq _))

/-- Group keys, totals, the sort and the ranks all depend only on the
multiset of loaded rows, so `compute_standings` is invariant under
permutations of its input. -/
theorem compute_standings_perm_eq (df1 df2 : List LoadedRow) (h : df1.Perm df2) :
    compute_standings df1 = compute_standings df2 := by
  have hkeys := standingsKeys_perm_eq df1 df2 h
  have htotals : (standingsKeys df1).map (fun k => (k, totalsOf df1 k))
      = (standingsKeys df2).map (fun k => (k, totalsOf df2 k)) := by
    rw [hkeys]
    apply List.map_congr_left
    intro k hk
    rw [totalsOf_perm_eq df1 df2 h k]
  have hsorted : sortedTotals df1 = sortedTotals df2 := by
    unfold sortedTotals
    rw [htotals]
  rw [compute_standings_eq, compute_standings_eq, hsorted]

/-- C7: ingesting batch A then batch B produces the same standings (hence
the same per-player totals) as ingesting batch B then batch A, for any
starting stored table and any league being displayed.  Group keys come out
sorted and aggregation is order-insensitive, so the whole standings tables
coincide. -/
theorem claim7_batch_order_commutes (s0 : List StoredRow) (A B : List Row)
    (lgA tA dA lgB tB dB lg : String) :
    compute_standings (load_results_for_league
        (append_results B lgB tB dB (append_results A lgA tA dA s0)) lg)
      = compute_standings (load_results_for_league
        (append_results A lgA tA dA (append_results B lgB tB dB s0)) lg) := by
  apply compute_standings_perm_eq
  rw [load_eq, load_eq]
  apply List.Perm.map
  apply List.Perm.filter
  show ((s0 ++ storedOf A lgA tA dA) ++ storedOf B lgB tB dB).Perm
    ((s0 ++ storedOf B lgB tB dB) ++ storedOf A lgA tA dA)
  rw [List.append_assoc, List.append_assoc]
  exact List.Perm.append_left s0 List.perm_append_comm
